import Mathlib

/-!
Verification development for the MSVC compiler backend of a compilation
cache (`src/compiler/msvc.rs`).

The embedding is shallow and executable:

* Rust `&[String]` argument lists become `List String`.
* `Path`/`str` standard-library operations used by the source
  (`starts_with`, `ends_with`, `trim`, `split`, `Path::extension`,
  `Path::file_name`, `Path::join`) are modelled by structurally recursive
  functions over `List Char`, so that every concrete claim instance can be
  settled by kernel evaluation.
* Byte streams (process stdout/stderr) are modelled as `String`; the
  local-code-page decoding step `from_local_codepage` is an injected
  partial function `String → Option String` (decoding is a boundary
  capability; `none` models an `io::Error`).
* Filesystem probes (`Path::exists`) are an injected oracle
  `String → Bool`.
* Process execution (`run_input_output`) is the injected capability of
  the design: it returns the child's exit status and captured streams
  unchanged (this pass-through behaviour is forced by the callers in the
  source: `detect_showincludes_prefix` checks `output.status.success()`
  itself and `compile` branches on the primary attempt's status).
  Functions therefore take the resulting `ProcOutput` (or, for `compile`,
  a stream of them indexed by invocation number) as an argument, and
  `compile` additionally returns the list of compiler invocations it
  issued so that invocation-count properties are statable.
* `normpath` is embedded as the `cfg(not(windows))` variant of the
  source (the identity); the `cfg(windows)` variant is a
  platform-API call outside the pure model.
* File writes are modelled by returning the written path and content.
-/

namespace Msvc

/-- Decidable equality for `Except` results, so that concrete claim
instances evaluate by `decide`. -/
def exceptDecEq {ε α : Type} [DecidableEq ε] [DecidableEq α] :
    (a b : Except ε α) → Decidable (a = b)
  | Except.ok a, Except.ok b =>
    if h : a = b then Decidable.isTrue (by rw [h])
    else Decidable.isFalse (fun hh => h (Except.ok.inj hh))
  | Except.ok _, Except.error _ => Decidable.isFalse (fun hh => Except.noConfusion hh)
  | Except.error _, Except.ok _ => Decidable.isFalse (fun hh => Except.noConfusion hh)
  | Except.error e, Except.error f =>
    if h : e = f then Decidable.isTrue (by rw [h])
    else Decidable.isFalse (fun hh => h (Except.error.inj hh))

instance {ε α : Type} [DecidableEq ε] [DecidableEq α] : DecidableEq (Except ε α) :=
  exceptDecEq

/-! ### Character/string primitives (models of the Rust std functions used) -/

/-- Split a character list at every occurrence of `c` (model of
`str::split` with a one-character pattern; also the core of `str::lines`). -/
def splitChar (c : Char) : List Char → List (List Char)
  | [] => [[]]
  | x :: xs =>
    let r := splitChar c xs
    if x == c then [] :: r
    else
      match r with
      | [] => [[x]]
      | y :: ys => (x :: y) :: ys

/-- Model of `str::starts_with` for string patterns. -/
def strStartsWith (s pre : String) : Bool :=
  pre.toList.isPrefixOf s.toList

/-- Model of `str::ends_with` for string patterns. -/
def strEndsWith (s suf : String) : Bool :=
  suf.toList.isSuffixOf s.toList

/-- Model of `&s[n..]` on char-aligned indices: drop the first `n` characters. -/
def strDrop (s : String) (n : Nat) : String :=
  String.mk (s.toList.drop n)

/-- Whitespace test used by `str::trim` (ASCII fragment). -/
def isWS (c : Char) : Bool :=
  c == ' ' || c == '\t' || c == '\r' || c == '\n'

/-- Model of `str::trim`. -/
def strTrim (s : String) : String :=
  String.mk (((s.toList.dropWhile isWS).reverse.dropWhile isWS).reverse)

/-- Strip one trailing carriage return (the `\r` of a `\r\n` line ending). -/
def stripCRChars (l : List Char) : List Char :=
  match l.reverse with
  | [] => l
  | c :: rest => if c == '\r' then rest.reverse else l

/-- Model of Rust `str::lines`: split at `\n`, dropping one `\r` before each
`\n`; a final line ending is optional, and a trailing `\r` not followed by
`\n` is kept. -/
def rustLines (s : String) : List String :=
  match (splitChar '\n' s.toList).reverse with
  | [] => []
  | last :: revInit =>
    let init := revInit.reverse.map (fun l => String.mk (stripCRChars l))
    if last.isEmpty then init else init ++ [String.mk last]

/-- Model of `Path::join` (Unix flavour): an absolute right operand replaces
the base. -/
def joinPath (base p : String) : String :=
  if strStartsWith p "/" = true then p else base ++ "/" ++ p

/-- Model of `Path::file_name`: the final non-empty, non-`.` component, or
`none` when there is none or the path terminates in `..`. -/
def fileName (p : String) : Option String :=
  let comps := (splitChar '/' p.toList).filter (fun c => !c.isEmpty && c ≠ ['.'])
  match comps.reverse with
  | [] => none
  | c :: _ => if c = ['.', '.'] then none else some (String.mk c)

/-- Model of `Path::extension` composed with `OsStr::to_str` (total on our
`String` model): the part of the file name after its last `.`, except that a
file name with no `.`, or starting with its only `.`, has no extension. -/
def pathExtension (p : String) : Option String :=
  match fileName p with
  | none => none
  | some f =>
    match splitChar '.' f.toList with
    | [] => none
    | [_] => none
    | first :: rest =>
      if first.isEmpty && rest.length = 1 then none
      else
        match rest.reverse with
        | [] => none
        | e :: _ => some (String.mk e)

/-- Lexicographic (code-point, hence UTF-8 byte) strict order on char lists:
the order `Vec<String>::sort` uses. -/
def lexLt : List Char → List Char → Bool
  | [], [] => false
  | [], _ :: _ => true
  | _ :: _, [] => false
  | a :: as, b :: bs =>
    if a.toNat < b.toNat then true
    else if b.toNat < a.toNat then false
    else lexLt as bs

/-- Insert into a lexicographically sorted list of strings. -/
def insertSorted (x : String) : List String → List String
  | [] => [x]
  | y :: ys => if lexLt y.toList x.toList = true then y :: insertSorted x ys else x :: y :: ys

/-- Model of `Vec<String>::sort` (order is all the source relies on). -/
def sortStr : List String → List String
  | [] => []
  | x :: xs => insertSorted x (sortStr xs)

/-! ### Data model -/

/-- Model of `std::process::ExitStatus`. -/
structure ExitStatus where
  code : Int
deriving DecidableEq, Repr

/-- Model of `ExitStatus::success`. -/
def ExitStatus.success (s : ExitStatus) : Bool :=
  s.code == 0

/-- Model of `std::process::Output` (streams as strings, see the header). -/
structure ProcOutput where
  status : ExitStatus
  stdout : String
  stderr : String
deriving DecidableEq, Repr

/-- Model of `compiler::Cacheable`. -/
inductive Cacheable where
  | Yes
  | No
deriving DecidableEq, Repr

/-- Model of `compiler::ParsedArguments`; the `HashMap<&str, String>` of
outputs becomes an association list in insertion order. -/
structure ParsedArguments where
  input : String
  extension : String
  depfile : Option String
  outputs : List (String × String)
  preprocessor_args : List String
  common_args : List String
deriving DecidableEq, Repr

/-- Model of `compiler::CompilerArguments`. -/
inductive CompilerArguments where
  | Ok : ParsedArguments → CompilerArguments
  | NotCompilation : CompilerArguments
  | CannotCache : CompilerArguments
deriving DecidableEq, Repr

/-- One issued compiler invocation (executable, argument list, working
directory) as assembled on a `mock_command` builder. -/
structure CompileCmd where
  exe : String
  args : List String
  cwd : String
deriving DecidableEq, Repr

/-! ### Argument classifier (`parse_arguments`) -/

/-- The mutable locals of `parse_arguments`'s scan loop. -/
structure ScanState where
  output_arg : Option String
  input_arg : Option String
  common_args : List String
  compilation : Bool
  debug_info : Bool
  pdb : Option String
  depfile : Option String
deriving DecidableEq, Repr

/-- The multi-output flags rejected by `parse_arguments`
(`"-FA" | "-Fa" | "-Fe" | "-Fm" | "-Fp" | "-FR" | "-Fx"`). -/
def multiOutputFlag (a : String) : Bool :=
  a == "-FA" || a == "-Fa" || a == "-Fe" || a == "-Fm" || a == "-Fp" || a == "-FR" || a == "-Fx"

/-- The post-scan validation of `parse_arguments` (everything after the
argument loop in the source). -/
def finishParse (st : ScanState) : CompilerArguments :=
  if st.compilation = false then CompilerArguments.NotCompilation
  else
    match st.input_arg with
    | none => CompilerArguments.CannotCache
    | some i =>
      match pathExtension i with
      | none => CompilerArguments.CannotCache
      | some e =>
        match st.output_arg with
        | none => CompilerArguments.CannotCache
        | some o =>
          if st.debug_info = true then
            match st.pdb with
            | none => CompilerArguments.CannotCache
            | some p =>
              CompilerArguments.Ok
                ⟨i, e, st.depfile, [("obj", o), ("pdb", p)], [], st.common_args⟩
          else
            CompilerArguments.Ok ⟨i, e, st.depfile, [("obj", o)], [], st.common_args⟩

/-- The scan loop of `parse_arguments`: one `match` per argument, first rule
wins, with `"-FI"` pulling its value from the iterator. -/
def parseLoop : ScanState → List String → CompilerArguments
  | st, [] => finishParse st
  | st, arg :: it =>
    if arg = "-c" then parseLoop { st with compilation := true } it
    else if strStartsWith arg "-Fo" = true then
      parseLoop { st with output_arg := some (strDrop arg 3) } it
    else if arg = "-FI" then
      match it with
      | [] => finishParse { st with common_args := st.common_args ++ [arg] }
      | v :: it2 => parseLoop { st with common_args := st.common_args ++ [arg, v] } it2
    else if strStartsWith arg "-deps" = true then
      parseLoop { st with depfile := some (strDrop arg 5) } it
    else if arg = "-showIncludes" then CompilerArguments.CannotCache
    else if strStartsWith arg "@" = true then CompilerArguments.CannotCache
    else if multiOutputFlag arg = true then CompilerArguments.CannotCache
    else if arg = "-Zi" then
      parseLoop { st with debug_info := true, common_args := st.common_args ++ [arg] } it
    else if strStartsWith arg "-Fd" = true then
      parseLoop { st with pdb := some (strDrop arg 3), common_args := st.common_args ++ [arg] } it
    else if strStartsWith arg "-" = true ∧ 1 < arg.length then
      parseLoop { st with common_args := st.common_args ++ [arg] } it
    else if st.input_arg.isSome = true then CompilerArguments.CannotCache
    else parseLoop { st with input_arg := some arg } it

/-- Model of `parse_arguments`. -/
def parse_arguments (arguments : List String) : CompilerArguments :=
  parseLoop ⟨none, none, [], false, false, none, none⟩ arguments

/-! ### Include-prefix detector (`detect_showincludes_prefix`)

The probe invocation (`-nologo -showIncludes -c -Fonul` on a temp file
including `stdio.h`) is issued through the injected process capability; the
model starts from the captured `ProcOutput`.  `fsx` is the
`Path::exists` oracle and `dec` the code-page decoder. -/

/-- The inner loop over `line.char_indices().rev()`: scanning from the right
end (positions `n-1, n-2, …`), return the first position holding a space
whose remainder (from just after the space) is an existing path. -/
def scanRev (fsx : String → Bool) (cs : List Char) : Nat → Option Nat
  | 0 => none
  | n + 1 =>
    if (cs.get? n == some ' ') && fsx (String.mk (cs.drop (n + 1))) then some n
    else scanRev fsx cs n

/-- Per-line step of the detector: only lines ending with the probe header's
filename are scanned; the prefix is everything up to and including the found
space. -/
def siPrefixOfLine (fsx : String → Bool) (line : String) : Option String :=
  if strEndsWith line "stdio.h" = true then
    match scanRev fsx line.toList line.toList.length with
    | some i => some (String.mk (line.toList.take (i + 1)))
    | none => none
  else none

/-- The outer loop of the detector over the decoded stdout lines: the first
line producing a boundary wins. -/
def firstSIPfx (fsx : String → Bool) : List String → Option String
  | [] => none
  | l :: ls =>
    match siPrefixOfLine fsx l with
    | some p => some p
    | none => firstSIPfx fsx ls

/-- Model of `detect_showincludes_prefix` from the probe's process output
onward: fail on unsuccessful exit, decode stdout from the local code page,
then scan for the prefix. -/
def detect_showincludes_prefix (fsx : String → Bool) (dec : String → Option String)
    (output : ProcOutput) : Except String String :=
  if output.status.success = false then Except.error "Failed to detect showIncludes prefix"
  else
    match dec output.stdout with
    | none => Except.error "failed to convert stdout from local codepage"
    | some stdoutText =>
      match firstSIPfx fsx (rustLines stdoutText) with
      | some p => Except.ok p
      | none => Except.error "Failed to detect showIncludes prefix"

/-! ### Preprocessor runner (`preprocess`) -/

/-- Model of `normpath`, `cfg(not(windows))` variant (the identity; the
windows variant canonicalizes via `GetFinalPathNameByHandleW`, a platform
API outside the pure model — the source's documented fallback is also a
plain separator rewrite). -/
def normpath (path : String) : String :=
  path

/-- One iteration of `preprocess`'s loop over the decoded stderr lines.
State: (dependency-rule text written so far, `deps` set in insertion order,
rebuilt stderr bytes).  A line starting with the includes prefix contributes
its trimmed, normalized remainder to `deps` (written into the rule only when
new and space-free); any other line is retained as diagnostic text. -/
def processLine ( incPfx : String) (acc : String × List String × String)
    (line : String) : String × List String × String :=
  if strStartsWith line incPfx = true then
    let dep := normpath (strTrim (strDrop line incPfx.length))
    if acc.2.1.contains dep = true then acc
    else if dep.toList.contains ' ' = true then (acc.1, acc.2.1 ++ [dep], acc.2.2)
    else (acc.1 ++ dep ++ " ", acc.2.1 ++ [dep], acc.2.2)
  else (acc.1, acc.2.1, acc.2.2 ++ line ++ "\n")

/-- The full stderr-line loop of `preprocess`. -/
def processLines ( incPfx : String) (lines : List String)
    (init : String × List String × String) : String × List String × String :=
  lines.foldl (processLine incPfx) init

/-- The trailing per-dependency empty rules of the dependency file: one
`dep:` line per space-free dependency, in the order given. -/
def depsRules (deps : List String) : String :=
  deps.foldl (fun acc d => if d.toList.contains ' ' = true then acc else acc ++ d ++ ":\n") ""

/-- Model of `preprocess` from the preprocessing process's output onward
(the invocation itself — `-E input -nologo common_args`, plus
`-showIncludes` iff a depfile was parsed — goes through the injected
process capability).  When an object output and a depfile path were parsed,
synthesize the dependency file (returned as `(path, content)` instead of a
disk write) and rebuild stderr from the retained lines; otherwise pass the
output through. -/
def preprocess (pa : ParsedArguments) (cwd incPfx : String)
    (dec : String → Option String) (output : ProcOutput) :
    Except String (ProcOutput × Option (String × String)) :=
  match pa.outputs.lookup "obj", pa.depfile with
  | some objfile, some depfile =>
    (match dec output.stderr with
     | none => Except.error "failed to convert stderr from local codepage"
     | some stderrText =>
       let st := processLines incPfx (rustLines stderrText)
         (objfile ++ ": " ++ pa.input ++ " ", [], "")
       Except.ok
         ({ status := output.status, stdout := output.stdout, stderr := st.2.2 },
          some (joinPath cwd depfile,
                st.1 ++ "\n" ++ pa.input ++ ":\n" ++ depsRules (sortStr st.2.1))))
  | _, _ => Except.ok (output, none)

/-! ### Compile executor (`compile`) -/

/-- The pre-compile cacheability check of `compile`: an already-existing pdb
at the parsed debug-symbols path (joined to the working directory) may be
shared with another compilation, so the result cannot be cached. -/
def pdbCacheable (fsx : String → Bool) (pa : ParsedArguments) (cwd : String) : Cacheable :=
  match pa.outputs.lookup "pdb" with
  | none => Cacheable.Yes
  | some pdb => if fsx (joinPath cwd pdb) = true then Cacheable.No else Cacheable.Yes

/-- Model of `compile`.  `runner i` is the process output of the `i`-th
compiler invocation issued (the injected execution capability);
`_preprocessor_output` is the byte content written to the temporary input
file `tmpdir/filename`.  Returns the list of invocations issued together
with the stage result, so that invocation counts are part of the model. -/
def compile (exe : String) (fsx : String → Bool) ( _preprocessor_output : String)
    (pa : ParsedArguments) (cwd tmpdir : String) (runner : Nat → ProcOutput) :
    List CompileCmd × Except String (Cacheable × ProcOutput) :=
  match pa.outputs.lookup "obj" with
  | none => ([], Except.error "Missing object file output")
  | some out_file =>
    let cacheable := pdbCacheable fsx pa cwd
    match fileName pa.input with
    | none => ([], Except.error "missing input filename")
    | some filename =>
      let input := joinPath tmpdir filename
      let cmd1 : CompileCmd :=
        ⟨exe, ["-c", "-Fo" ++ out_file] ++ pa.common_args ++ [input], cwd⟩
      if (runner 0).status.success = true then
        ([cmd1], Except.ok (cacheable, runner 0))
      else
        let cmd2 : CompileCmd :=
          ⟨exe, ["-c", pa.input, "-Fo" ++ out_file] ++ pa.common_args, cwd⟩
        ([cmd1, cmd2], Except.ok (cacheable, runner 1))

/-! ### Helper lemmas: preprocessor runner -/

/-- The spec-side expression for the rebuilt error stream: the decoded
stderr lines not starting with the includes prefix, each followed by a
newline, in order. -/
def joinRetained ( incPfx : String) : List String → String
  | [] => ""
  | l :: ls =>
    if strStartsWith l incPfx = true then joinRetained incPfx ls
    else l ++ "\n" ++ joinRetained incPfx ls

theorem processLine_retained_of_pfx ( incPfx : String) (acc : String × List String × String)
    (line : String) (h : strStartsWith line incPfx = true) :
    (processLine incPfx acc line).2.2 = acc.2.2 := by
  simp only [processLine, h, if_true]
  split
  · rfl
  · split <;> rfl

theorem processLines_retained ( incPfx : String) (ls : List String) :
    ∀ acc : String × List String × String,
      (processLines incPfx ls acc).2.2 = acc.2.2 ++ joinRetained incPfx ls := by
  induction ls with
  | nil =>
    intro acc
    simp only [processLines, List.foldl_nil, joinRetained, String.append_empty]
  | cons l ls ih =>
    intro acc
    have hstep : processLines incPfx (l :: ls) acc
        = processLines incPfx ls (processLine incPfx acc l) := rfl
    rw [hstep, ih]
    by_cases h : strStartsWith l incPfx = true
    · rw [processLine_retained_of_pfx incPfx acc l h]
      simp only [joinRetained, h, if_true]
    · have hP : processLine incPfx acc l = (acc.1, acc.2.1, acc.2.2 ++ l ++ "\n") := by
        simp only [processLine, h]
        simp
      rw [hP]
      simp [joinRetained, h, String.append_assoc]

/-- Shape of `preprocess` when an object output and a depfile were parsed
and decoding succeeds: the dependency file is synthesized and returned with
the rebuilt output. -/
theorem preprocess_eq_some (pa : ParsedArguments) (cwd incPfx : String)
    (dec : String → Option String) (output : ProcOutput) (objf df s : String)
    (ho : pa.outputs.lookup "obj" = some objf) (hd : pa.depfile = some df)
    (hs : dec output.stderr = some s) :
    preprocess pa cwd incPfx dec output =
      Except.ok
        ({ status := output.status, stdout := output.stdout,
           stderr := (processLines incPfx (rustLines s)
             (objf ++ ": " ++ pa.input ++ " ", [], "")).2.2 },
         some (joinPath cwd df,
           (processLines incPfx (rustLines s) (objf ++ ": " ++ pa.input ++ " ", [], "")).1
             ++ "\n" ++ pa.input ++ ":\n"
             ++ depsRules (sortStr (processLines incPfx (rustLines s)
                  (objf ++ ": " ++ pa.input ++ " ", [], "")).2.1))) := by
  simp only [preprocess, ho, hd, hs]

/-! ### Claims C1, C3, C7 (preprocessor runner) -/

/-- Claim C1, counterexample: with a depfile parsed and an unsuccessful
exit status, `preprocess` does not fail; it synthesizes the dependency file
and returns a successful result (carrying that unsuccessful status), so the
claimed hard error does not occur. -/
theorem c1_counterexample :
    (⟨"foo.c", "c", some "foo.d", [("obj", "foo.obj")], [], []⟩ : ParsedArguments).depfile
        = some "foo.d" ∧
    (⟨⟨1⟩, "", ""⟩ : ProcOutput).status.success = false ∧
    preprocess ⟨"foo.c", "c", some "foo.d", [("obj", "foo.obj")], [], []⟩ "/w" "Include: " some
        ⟨⟨1⟩, "", ""⟩ =
      Except.ok (⟨⟨1⟩, "", ""⟩, some ("/w/foo.d", "foo.obj: foo.c \nfoo.c:\n")) := by
  decide

/-- Claim C1, amended: when a dependency file was requested (and an object
output parsed), `preprocess` performs dependency-file synthesis without
checking the exit status: whenever stderr decoding succeeds it returns a
successful result, for any exit status, passing the process's original
status through; it fails only on decoding (or file I/O) errors. -/
theorem c1_amended (pa : ParsedArguments) (cwd incPfx : String)
    (dec : String → Option String) (output : ProcOutput) (objf df s : String)
    (ho : pa.outputs.lookup "obj" = some objf) (hd : pa.depfile = some df)
    (hs : dec output.stderr = some s) :
    ∃ r w, preprocess pa cwd incPfx dec output = Except.ok (r, some w) ∧
      r.status = output.status := by
  exact ⟨_, _, preprocess_eq_some pa cwd incPfx dec output objf df s ho hd hs, rfl⟩

theorem c1_witness :
    ∃ r w, preprocess ⟨"x.c", "c", some "x.d", [("obj", "x.obj")], [], []⟩ "/w" "P: " some
        ⟨⟨3⟩, "so", "se"⟩ = Except.ok (r, some w) ∧ r.status = ⟨3⟩ :=
  c1_amended ⟨"x.c", "c", some "x.d", [("obj", "x.obj")], [], []⟩ "/w" "P: " some
    ⟨⟨3⟩, "so", "se"⟩ "x.obj" "x.d" "se" rfl rfl rfl

/-- Claim C3: for stderr lines carrying the detected prefix for two distinct
headers plus one duplicate (and one space-containing path), the written
dependency file holds the object rule with exactly the two distinct
dependency paths (duplicate suppressed, in first-seen order), the input's
empty rule, and one standalone empty rule per dependency in lexicographic
order; the space-containing path appears nowhere in the file yet is recorded
in the seen-dependencies set. -/
theorem c3_depfile_synthesis :
    preprocess ⟨"foo.c", "c", some "foo.d", [("obj", "foo.obj")], [], []⟩ "/w" "Include: " some
        ⟨⟨0⟩, "PRE", "Include: b.h\nInclude: a.h\nInclude: b.h\nInclude: x y.h\n"⟩ =
      Except.ok (⟨⟨0⟩, "PRE", ""⟩,
        some ("/w/foo.d", "foo.obj: foo.c b.h a.h \nfoo.c:\na.h:\nb.h:\n")) ∧
    (processLines "Include: "
        (rustLines "Include: b.h\nInclude: a.h\nInclude: b.h\nInclude: x y.h\n")
        ("foo.obj: foo.c ", [], "")).2.1 = ["b.h", "a.h", "x y.h"] := by
  decide

/-- Claim C7: when dependency-file synthesis runs (object output and depfile
parsed, stderr decoded), the returned process output keeps the standard
output and the exit status of the underlying process unchanged, and its
error stream is exactly the decoded stderr lines that do not start with the
includes prefix, each followed by a newline, in their original order. -/
theorem c7_stream_rebuild (pa : ParsedArguments) (cwd incPfx : String)
    (dec : String → Option String) (output : ProcOutput) (objf df s : String)
    (ho : pa.outputs.lookup "obj" = some objf) (hd : pa.depfile = some df)
    (hs : dec output.stderr = some s) :
    ∃ w, preprocess pa cwd incPfx dec output =
      Except.ok
        ({ status := output.status, stdout := output.stdout,
           stderr := joinRetained incPfx (rustLines s) }, w) := by
  have h1 : (processLines incPfx (rustLines s)
      (objf ++ ": " ++ pa.input ++ " ", [], "")).2.2 = joinRetained incPfx (rustLines s) := by
    rw [processLines_retained incPfx (rustLines s) (objf ++ ": " ++ pa.input ++ " ", [], "")]
    exact String.empty_append _
  have hmain := preprocess_eq_some pa cwd incPfx dec output objf df s ho hd hs
  rw [h1] at hmain
  exact ⟨_, hmain⟩

theorem c7_witness :
    ∃ w, preprocess ⟨"x.c", "c", some "x.d", [("obj", "x.obj")], [], []⟩ "/w" "P: " some
        ⟨⟨0⟩, "so", "P: a.h\nnote\n"⟩ =
      Except.ok ({ status := ⟨0⟩, stdout := "so", stderr := "note\n" }, w) :=
  c7_stream_rebuild ⟨"x.c", "c", some "x.d", [("obj", "x.obj")], [], []⟩ "/w" "P: " some
    ⟨⟨0⟩, "so", "P: a.h\nnote\n"⟩ "x.obj" "x.d" "P: a.h\nnote\n" rfl rfl rfl

/-! ### Helper lemmas: argument classifier -/

/-- One-step unfolding of the scan loop on a non-empty argument list. -/
theorem parseLoop_cons (st : ScanState) (arg : String) (it : List String) :
    parseLoop st (arg :: it) =
      (if arg = "-c" then parseLoop { st with compilation := true } it
       else if strStartsWith arg "-Fo" = true then
         parseLoop { st with output_arg := some (strDrop arg 3) } it
       else if arg = "-FI" then
         (match it with
          | [] => finishParse { st with common_args := st.common_args ++ [arg] }
          | v :: it2 => parseLoop { st with common_args := st.common_args ++ [arg, v] } it2)
       else if strStartsWith arg "-deps" = true then
         parseLoop { st with depfile := some (strDrop arg 5) } it
       else if arg = "-showIncludes" then CompilerArguments.CannotCache
       else if strStartsWith arg "@" = true then CompilerArguments.CannotCache
       else if multiOutputFlag arg = true then CompilerArguments.CannotCache
       else if arg = "-Zi" then
         parseLoop { st with debug_info := true, common_args := st.common_args ++ [arg] } it
       else if strStartsWith arg "-Fd" = true then
         parseLoop { st with pdb := some (strDrop arg 3), common_args := st.common_args ++ [arg] } it
       else if strStartsWith arg "-" = true ∧ 1 < arg.length then
         parseLoop { st with common_args := st.common_args ++ [arg] } it
       else if st.input_arg.isSome = true then CompilerArguments.CannotCache
       else parseLoop { st with input_arg := some arg } it) := by
  cases it <;> rfl

theorem finishParse_not_compilation (st : ScanState) (hc : st.compilation = false) :
    finishParse st = CompilerArguments.NotCompilation := by
  simp [finishParse, hc]

theorem finishParse_zi_no_pdb (st : ScanState) (hc : st.compilation = true)
    (hd : st.debug_info = true) (hp : st.pdb = none) :
    finishParse st = CompilerArguments.CannotCache := by
  simp only [finishParse, hc, hd, hp]
  cases hin : st.input_arg with
  | none => simp
  | some i =>
    simp only []
    cases hext : pathExtension i with
    | none => simp
    | some e =>
      simp only []
      cases hout : st.output_arg with
      | none => simp
      | some o => simp

set_option maxHeartbeats 1000000 in
/-- Without a `-c` token anywhere, the scan can never reach an `Ok` verdict:
the loop either hits an early `CannotCache` return or falls through to the
post-scan check, which reports `NotCompilation`. -/
theorem parseLoop_no_compilation :
    ∀ (n : Nat) (args : List String) (st : ScanState), args.length ≤ n →
      st.compilation = false → "-c" ∉ args →
      parseLoop st args = CompilerArguments.NotCompilation ∨
      parseLoop st args = CompilerArguments.CannotCache := by
  intro n
  induction n with
  | zero =>
    intro args st hlen hc _
    have : args = [] := List.eq_nil_of_length_eq_zero (Nat.le_zero.mp hlen)
    subst this
    exact Or.inl (finishParse_not_compilation st hc)
  | succ n ih =>
    intro args st hlen hc hmem
    match args with
    | [] => exact Or.inl (finishParse_not_compilation st hc)
    | t :: ts =>
      have hmem' : "-c" ∉ ts := fun h => hmem (List.mem_cons_of_mem t h)
      have hne : t ≠ "-c" := fun h => hmem (h ▸ List.mem_cons_self t ts)
      have hlen' : ts.length ≤ n := Nat.le_of_succ_le_succ hlen
      rw [parseLoop_cons, if_neg hne]
      by_cases h2 : strStartsWith t "-Fo" = true
      · rw [if_pos h2]; exact ih ts _ hlen' hc hmem'
      rw [if_neg h2]
      by_cases h3 : t = "-FI"
      · rw [if_pos h3]
        cases ts with
        | nil => exact Or.inl (finishParse_not_compilation _ hc)
        | cons v ts2 =>
          have hl2 : ts2.length ≤ n := Nat.le_of_succ_le (Nat.le_of_succ_le_succ hlen)
          exact ih ts2 _ hl2 hc (fun h => hmem' (List.mem_cons_of_mem v h))
      rw [if_neg h3]
      by_cases h4 : strStartsWith t "-deps" = true
      · rw [if_pos h4]; exact ih ts _ hlen' hc hmem'
      rw [if_neg h4]
      by_cases h5 : t = "-showIncludes"
      · rw [if_pos h5]; exact Or.inr rfl
      rw [if_neg h5]
      by_cases h6 : strStartsWith t "@" = true
      · rw [if_pos h6]; exact Or.inr rfl
      rw [if_neg h6]
      by_cases h7 : multiOutputFlag t = true
      · rw [if_pos h7]; exact Or.inr rfl
      rw [if_neg h7]
      by_cases h8 : t = "-Zi"
      · rw [if_pos h8]; exact ih ts _ hlen' hc hmem'
      rw [if_neg h8]
      by_cases h9 : strStartsWith t "-Fd" = true
      · rw [if_pos h9]; exact ih ts _ hlen' hc hmem'
      rw [if_neg h9]
      by_cases h10 : strStartsWith t "-" = true ∧ 1 < t.length
      · rw [if_pos h10]; exact ih ts _ hlen' hc hmem'
      rw [if_neg h10]
      by_cases h11 : st.input_arg.isSome = true
      · rw [if_pos h11]; exact Or.inr rfl
      rw [if_neg h11]
      exact ih ts _ hlen' hc hmem'

set_option maxHeartbeats 1000000 in
/-- With a parsed debug-info flag, no parsed debug-symbols path and no
value-consuming `-FI` in the list, the verdict is always `CannotCache`. -/
theorem parseLoop_zi_cannotcache :
    ∀ (n : Nat) (args : List String) (st : ScanState), args.length ≤ n →
      st.pdb = none →
      (∀ t ∈ args, strStartsWith t "-Fd" = false) →
      "-FI" ∉ args →
      (st.compilation = true ∨ "-c" ∈ args) →
      (st.debug_info = true ∨ "-Zi" ∈ args) →
      parseLoop st args = CompilerArguments.CannotCache := by
  intro n
  induction n with
  | zero =>
    intro args st hlen hp _ _ hcomp hdbg
    have : args = [] := List.eq_nil_of_length_eq_zero (Nat.le_zero.mp hlen)
    subst this
    have hc : st.compilation = true := hcomp.resolve_right (by simp)
    have hd : st.debug_info = true := hdbg.resolve_right (by simp)
    exact finishParse_zi_no_pdb st hc hd hp
  | succ n ih =>
    intro args st hlen hp hFd hFI hcomp hdbg
    match args with
    | [] =>
      have hc : st.compilation = true := hcomp.resolve_right (by simp)
      have hd : st.debug_info = true := hdbg.resolve_right (by simp)
      exact finishParse_zi_no_pdb st hc hd hp
    | t :: ts =>
      have hFd' : ∀ u ∈ ts, strStartsWith u "-Fd" = false :=
        fun u hu => hFd u (List.mem_cons_of_mem t hu)
      have hFdt : strStartsWith t "-Fd" = false := hFd t (List.mem_cons_self t ts)
      have hFI' : "-FI" ∉ ts := fun h => hFI (List.mem_cons_of_mem t h)
      have hFIt : t ≠ "-FI" := fun h => hFI (h ▸ List.mem_cons_self t ts)
      have hlen' : ts.length ≤ n := Nat.le_of_succ_le_succ hlen
      rw [parseLoop_cons]
      by_cases h1 : t = "-c"
      · rw [if_pos h1]
        refine ih ts _ hlen' hp hFd' hFI' (Or.inl rfl) ?_
        rcases hdbg with hd | hd
        · exact Or.inl hd
        · rcases List.mem_cons.mp hd with hz | hz
          · rw [h1] at hz; exact absurd hz (by decide)
          · exact Or.inr hz
      rw [if_neg h1]
      have hcomp' : st.compilation = true ∨ "-c" ∈ ts := by
        rcases hcomp with hcp | hcp
        · exact Or.inl hcp
        · rcases List.mem_cons.mp hcp with hz | hz
          · exact absurd hz.symm h1
          · exact Or.inr hz
      by_cases h2 : strStartsWith t "-Fo" = true
      · rw [if_pos h2]
        refine ih ts _ hlen' hp hFd' hFI' hcomp' ?_
        rcases hdbg with hd | hd
        · exact Or.inl hd
        · rcases List.mem_cons.mp hd with hz | hz
          · rw [← hz] at h2; exact absurd h2 (by decide)
          · exact Or.inr hz
      rw [if_neg h2]
      rw [if_neg hFIt]
      by_cases h4 : strStartsWith t "-deps" = true
      · rw [if_pos h4]
        refine ih ts _ hlen' hp hFd' hFI' hcomp' ?_
        rcases hdbg with hd | hd
        · exact Or.inl hd
        · rcases List.mem_cons.mp hd with hz | hz
          · rw [← hz] at h4; exact absurd h4 (by decide)
          · exact Or.inr hz
      rw [if_neg h4]
      by_cases h5 : t = "-showIncludes"
      · rw [if_pos h5]
      rw [if_neg h5]
      by_cases h6 : strStartsWith t "@" = true
      · rw [if_pos h6]
      rw [if_neg h6]
      by_cases h7 : multiOutputFlag t = true
      · rw [if_pos h7]
      rw [if_neg h7]
      by_cases h8 : t = "-Zi"
      · rw [if_pos h8]
        exact ih ts _ hlen' hp hFd' hFI' hcomp' (Or.inl rfl)
      rw [if_neg h8]
      have hdbg' : st.debug_info = true ∨ "-Zi" ∈ ts := by
        rcases hdbg with hd | hd
        · exact Or.inl hd
        · rcases List.mem_cons.mp hd with hz | hz
          · exact absurd hz.symm h8
          · exact Or.inr hz
      rw [if_neg (by simp [hFdt] : ¬ strStartsWith t "-Fd" = true)]
      by_cases h10 : strStartsWith t "-" = true ∧ 1 < t.length
      · rw [if_pos h10]
        exact ih ts _ hlen' hp hFd' hFI' hcomp' hdbg'
      rw [if_neg h10]
      by_cases h11 : st.input_arg.isSome = true
      · rw [if_pos h11]
      rw [if_neg h11]
      exact ih ts _ hlen' hp hFd' hFI' hcomp' hdbg'

/-! ### Claims C2, C8, C9 (argument classifier) -/

/-- Claim C2, counterexample: `["-showIncludes"]` contains no `-c` token,
yet `parse_arguments` returns `CannotCache`, not `NotCompilation` — the
early `CannotCache` returns fire before the compilation check. -/
theorem c2_counterexample :
    ("-c" ∉ (["-showIncludes"] : List String)) ∧
    parse_arguments ["-showIncludes"] = CompilerArguments.CannotCache ∧
    parse_arguments ["-showIncludes"] ≠ CompilerArguments.NotCompilation := by
  decide

/-- Claim C2, amended: for every argument list containing no `-c` token,
`parse_arguments` returns `NotCompilation` unless a token forces an early
`CannotCache` return — in particular it never returns `Ok`. -/
theorem c2_amended (args : List String) (h : "-c" ∉ args) :
    parse_arguments args = CompilerArguments.NotCompilation ∨
    parse_arguments args = CompilerArguments.CannotCache :=
  parseLoop_no_compilation args.length args _ le_rfl rfl h

theorem c2_witness :
    parse_arguments ["-Fofoo", "foo.c"] = CompilerArguments.NotCompilation ∨
    parse_arguments ["-Fofoo", "foo.c"] = CompilerArguments.CannotCache :=
  c2_amended ["-Fofoo", "foo.c"] (by decide)

/-- Claim C8, counterexample: the list
`["-c", "foo.c", "-Fofoo.obj", "-FI", "-Zi"]` contains a `-Zi` token and no
`-Fd` token, and classifies as a compilation, yet the result is `Ok` rather
than `CannotCache`: the preceding `-FI` consumes `-Zi` as its value, so the
debug-info flag is never recorded. -/
theorem c8_counterexample :
    ("-Zi" ∈ (["-c", "foo.c", "-Fofoo.obj", "-FI", "-Zi"] : List String)) ∧
    (∀ t ∈ (["-c", "foo.c", "-Fofoo.obj", "-FI", "-Zi"] : List String),
        strStartsWith t "-Fd" = false) ∧
    parse_arguments ["-c", "foo.c", "-Fofoo.obj", "-FI", "-Zi"] =
      CompilerArguments.Ok ⟨"foo.c", "c", none, [("obj", "foo.obj")], [], ["-FI", "-Zi"]⟩ := by
  decide

/-- Claim C8, amended: for every argument list containing `-Zi` not consumed
as the value of a `-FI` (no `-FI` token present), no `-Fd`-prefixed token,
and a `-c` token, `parse_arguments` returns `CannotCache`; and with both
`-Zi` and `-Fd<path>` present (plus `-c`, an input and an object output) the
result is `Ok` with both the object and the pdb outputs recorded and both
flags in the pass-through list in their original relative order. -/
theorem c8_amended :
    (∀ args : List String, "-c" ∈ args → "-Zi" ∈ args →
        (∀ t ∈ args, strStartsWith t "-Fd" = false) → "-FI" ∉ args →
        parse_arguments args = CompilerArguments.CannotCache) ∧
    parse_arguments ["-c", "foo.c", "-Zi", "-Fdfoo.pdb", "-Fofoo.obj"] =
      CompilerArguments.Ok
        ⟨"foo.c", "c", none, [("obj", "foo.obj"), ("pdb", "foo.pdb")], [],
          ["-Zi", "-Fdfoo.pdb"]⟩ := by
  constructor
  · intro args h1 h2 h3 h4
    exact parseLoop_zi_cannotcache args.length args _ le_rfl rfl h3 h4 (Or.inr h1) (Or.inr h2)
  · decide

theorem c8_witness :
    parse_arguments ["-c", "foo.c", "-Fofoo.obj", "-Zi"] = CompilerArguments.CannotCache :=
  c8_amended.1 ["-c", "foo.c", "-Fofoo.obj", "-Zi"] (by decide) (by decide) (by decide) (by decide)

/-- Claim C9: `-FI` consumes exactly the one following token, appending the
flag and that token verbatim as two consecutive pass-through entries; when
`-FI` is the last token, the flag alone is appended and the scan proceeds to
the ordinary post-scan validation (no error); concretely,
`["-c", "foo.c", "-FI", "file", "-Fofoo.obj"]` classifies `Ok` with
pass-through `["-FI", "file"]`. -/
theorem c9_forced_include :
    (∀ (st : ScanState) (v : String) (rest : List String),
        parseLoop st ("-FI" :: v :: rest) =
          parseLoop { st with common_args := st.common_args ++ ["-FI", v] } rest) ∧
    (∀ st : ScanState,
        parseLoop st ["-FI"] =
          finishParse { st with common_args := st.common_args ++ ["-FI"] }) ∧
    parse_arguments ["-c", "foo.c", "-FI", "file", "-Fofoo.obj"] =
      CompilerArguments.Ok ⟨"foo.c", "c", none, [("obj", "foo.obj")], [], ["-FI", "file"]⟩ :=
  ⟨fun _ _ _ => rfl, fun _ => rfl, by decide⟩

/-! ### Helper lemmas: include-prefix detector -/

/-- Soundness of the right-to-left scan: a returned index holds a space, the
remainder after it exists, and no later (more rightward) index qualifies. -/
theorem scanRev_some (fsx : String → Bool) (cs : List Char) :
    ∀ n i, scanRev fsx cs n = some i →
      i < n ∧ (cs.get? i == some ' ') = true ∧
      fsx (String.mk (cs.drop (i + 1))) = true ∧
      ∀ j, i < j → j < n →
        ((cs.get? j == some ' ') && fsx (String.mk (cs.drop (j + 1)))) = false := by
  intro n
  induction n with
  | zero => intro i h; exact absurd h (by simp [scanRev])
  | succ n ih =>
    intro i h
    rw [scanRev] at h
    by_cases hc : ((cs.get? n == some ' ') && fsx (String.mk (cs.drop (n + 1)))) = true
    · rw [if_pos hc] at h
      obtain rfl : n = i := Option.some.inj h
      have hc' := hc
      simp only [Bool.and_eq_true] at hc'
      refine ⟨Nat.lt_succ_self n, hc'.1, hc'.2, ?_⟩
      intro j hj1 hj2
      exfalso; omega
    · rw [if_neg hc] at h
      obtain ⟨h1, h2, h3, h4⟩ := ih i h
      refine ⟨Nat.lt_succ_of_lt h1, h2, h3, ?_⟩
      intro j hij hj
      rcases Nat.lt_succ_iff_lt_or_eq.mp hj with hlt | rfl
      · exact h4 j hij hlt
      · cases hb : ((cs.get? j == some ' ') && fsx (String.mk (cs.drop (j + 1)))) with
        | false => rfl
        | true => exact absurd hb hc

/-- Completeness of the right-to-left scan: the rightmost qualifying index
is returned. -/
theorem scanRev_complete (fsx : String → Bool) (cs : List Char) :
    ∀ n i, i < n →
      ((cs.get? i == some ' ') && fsx (String.mk (cs.drop (i + 1)))) = true →
      (∀ j, i < j → j < n →
        ((cs.get? j == some ' ') && fsx (String.mk (cs.drop (j + 1)))) = false) →
      scanRev fsx cs n = some i := by
  intro n
  induction n with
  | zero => intro i h _ _; exact absurd h (Nat.not_lt_zero i)
  | succ n ih =>
    intro i hi hc hmax
    rw [scanRev]
    by_cases hn : ((cs.get? n == some ' ') && fsx (String.mk (cs.drop (n + 1)))) = true
    · rw [if_pos hn]
      have he : i = n := by
        rcases Nat.lt_succ_iff_lt_or_eq.mp hi with hlt | he
        · have hf := hmax n hlt (Nat.lt_succ_self n)
          rw [hf] at hn
          exact absurd hn (by decide)
        · exact he
      rw [he]
    · rw [if_neg hn]
      have hi' : i < n := by
        rcases Nat.lt_succ_iff_lt_or_eq.mp hi with hlt | he
        · exact hlt
        · subst he; exact absurd hc hn
      exact ih i hi' hc (fun j hj1 hj2 => hmax j hj1 (Nat.lt_succ_of_lt hj2))

theorem siPrefixOfLine_some (fsx : String → Bool) (line p : String)
    (h : siPrefixOfLine fsx line = some p) :
    strEndsWith line "stdio.h" = true ∧
    ∃ i, scanRev fsx line.toList line.toList.length = some i ∧
      p = String.mk (line.toList.take (i + 1)) := by
  by_cases he : strEndsWith line "stdio.h" = true
  · refine ⟨he, ?_⟩
    rw [siPrefixOfLine, if_pos he] at h
    cases hs : scanRev fsx line.toList line.toList.length with
    | none => rw [hs] at h; exact absurd h (by simp)
    | some i => rw [hs] at h; exact ⟨i, rfl, (Option.some.inj h).symm⟩
  · rw [siPrefixOfLine, if_neg he] at h
    exact absurd h (by simp)

theorem firstSIPfx_some (fsx : String → Bool) :
    ∀ (ls : List String) (p : String), firstSIPfx fsx ls = some p →
      ∃ line ∈ ls, siPrefixOfLine fsx line = some p := by
  intro ls
  induction ls with
  | nil => intro p h; exact absurd h (by simp [firstSIPfx])
  | cons l ls ih =>
    intro p h
    rw [firstSIPfx] at h
    cases hl : siPrefixOfLine fsx l with
    | some q =>
      rw [hl] at h
      exact ⟨l, List.mem_cons_self l ls, by rw [hl, Option.some.inj h]⟩
    | none =>
      rw [hl] at h
      obtain ⟨line, hm, hp⟩ := ih p h
      exact ⟨line, List.mem_cons_of_mem l hm, hp⟩

theorem firstSIPfx_none (fsx : String → Bool) :
    ∀ ls : List String, (∀ line ∈ ls, siPrefixOfLine fsx line = none) →
      firstSIPfx fsx ls = none := by
  intro ls
  induction ls with
  | nil => intro _; rfl
  | cons l ls ih =>
    intro h
    rw [firstSIPfx, h l (List.mem_cons_self l ls)]
    exact ih (fun u hu => h u (List.mem_cons_of_mem l hu))

/-- Success shape of the detector: an `Ok` result means a successful exit,
a decoded stdout, and a prefix found by the line scan. -/
theorem detect_ok_iff (fsx : String → Bool) (dec : String → Option String)
    (output : ProcOutput) (p : String) :
    detect_showincludes_prefix fsx dec output = Except.ok p ↔
      output.status.success = true ∧
      ∃ s, dec output.stdout = some s ∧ firstSIPfx fsx (rustLines s) = some p := by
  unfold detect_showincludes_prefix
  by_cases hs : output.status.success = false
  · simp [hs]
  · have hs' : output.status.success = true := by
      cases hb : output.status.success
      · exact absurd hb hs
      · rfl
    rw [if_neg hs]
    cases hdec : dec output.stdout with
    | none => simp [hs']
    | some s =>
      cases hfp : firstSIPfx fsx (rustLines s) with
      | none => simp [hs', hfp]
      | some q => simp [hs', hfp, eq_comm]

/-! ### Claim C4 (include-prefix detector) -/

/-- Claim C4: (a) an unsuccessful probe exit is a detection error; (b) any
returned prefix comes from a decoded stdout line ending in the probe
header's filename, split at the rightmost space whose remainder is an
existing path, the prefix being everything up to and including that space;
(c) for the captured line `blah: <existing path>` the detected prefix is
exactly `"blah: "`; (d) if no line ends with the header name or no candidate
space yields an existing path, detection fails. -/
theorem c4_detect_spec :
    (∀ (fsx : String → Bool) (dec : String → Option String) (output : ProcOutput),
        output.status.success = false →
        detect_showincludes_prefix fsx dec output =
          Except.error "Failed to detect showIncludes prefix") ∧
    (∀ (fsx : String → Bool) (dec : String → Option String) (output : ProcOutput) (p : String),
        detect_showincludes_prefix fsx dec output = Except.ok p →
        ∃ s, dec output.stdout = some s ∧
          ∃ line ∈ rustLines s, strEndsWith line "stdio.h" = true ∧
            ∃ i, (line.toList.get? i == some ' ') = true ∧
              fsx (String.mk (line.toList.drop (i + 1))) = true ∧
              (∀ j, i < j → j < line.toList.length →
                ((line.toList.get? j == some ' ') &&
                  fsx (String.mk (line.toList.drop (j + 1)))) = false) ∧
              p = String.mk (line.toList.take (i + 1))) ∧
    ( detect_showincludes_prefix (fun s => s == "/tmp/stdio.h") some
        ⟨⟨0⟩, "blah: /tmp/stdio.h\r\n", ""⟩ = Except.ok "blah: ") ∧
    (∀ (fsx : String → Bool) (dec : String → Option String) (output : ProcOutput) (s : String),
        dec output.stdout = some s →
        (∀ line ∈ rustLines s, strEndsWith line "stdio.h" = false ∨
            scanRev fsx line.toList line.toList.length = none) →
        detect_showincludes_prefix fsx dec output =
          Except.error "Failed to detect showIncludes prefix") := by
  refine ⟨?_, ?_, by decide, ?_⟩
  · intro fsx dec output h
    simp [ detect_showincludes_prefix, h]
  · intro fsx dec output p h
    obtain ⟨hs, s, hdec, hfp⟩ := (detect_ok_iff fsx dec output p).mp h
    refine ⟨s, hdec, ?_⟩
    obtain ⟨line, hmem, hline⟩ := firstSIPfx_some fsx (rustLines s) p hfp
    obtain ⟨hend, i, hscan, hp⟩ := siPrefixOfLine_some fsx line p hline
    obtain ⟨_, hsp, hfsx, hmax⟩ := scanRev_some fsx line.toList _ i hscan
    exact ⟨line, hmem, hend, i, hsp, hfsx, hmax, hp⟩
  · intro fsx dec output s hdec hall
    have hnone : firstSIPfx fsx (rustLines s) = none := by
      apply firstSIPfx_none
      intro line hline
      rcases hall line hline with hf | hf
      · simp [siPrefixOfLine, hf]
      · by_cases he : strEndsWith line "stdio.h" = true
        · have hf' : scanRev fsx line.data line.length = none := hf
          simp [siPrefixOfLine, he, hf']
        · simp [siPrefixOfLine, he]
    unfold detect_showincludes_prefix
    by_cases hs : output.status.success = false
    · rw [if_pos hs]
    · rw [if_neg hs, hdec]
      simp [hnone]

theorem c4_witness :
    detect_showincludes_prefix (fun _ => false) some ⟨⟨2⟩, "", ""⟩ =
      Except.error "Failed to detect showIncludes prefix" :=
  c4_detect_spec.1 (fun _ => false) some ⟨⟨2⟩, "", ""⟩ rfl

/-! ### Claims C5, C6, C10 (compile executor) -/

/-- Claim C5: the cacheability tag of a successful compile stage is `No`
when a pdb output was parsed and a file exists at that path joined to the
working directory, `Yes` when it does not exist, and `Yes` when no pdb
output was requested at all. -/
theorem c5_cacheable_tag (exe : String) (fsx : String → Bool) (po : String)
    (pa : ParsedArguments) (cwd tmpdir : String) (runner : Nat → ProcOutput)
    (objf fn : String)
    (ho : pa.outputs.lookup "obj" = some objf) (hf : fileName pa.input = some fn) :
    ∃ r, (compile exe fsx po pa cwd tmpdir runner).2 = Except.ok r ∧
      ((∀ q, pa.outputs.lookup "pdb" = some q → fsx (joinPath cwd q) = true →
          r.1 = Cacheable.No) ∧
       (∀ q, pa.outputs.lookup "pdb" = some q → fsx (joinPath cwd q) = false →
          r.1 = Cacheable.Yes) ∧
       (pa.outputs.lookup "pdb" = none → r.1 = Cacheable.Yes)) := by
  have key : ∃ out, (compile exe fsx po pa cwd tmpdir runner).2
      = Except.ok (pdbCacheable fsx pa cwd, out) := by
    by_cases hs : (runner 0).status.success = true
    · exact ⟨runner 0, by simp [compile, ho, hf, hs]⟩
    · exact ⟨runner 1, by simp [compile, ho, hf, hs]⟩
  obtain ⟨out, hout⟩ := key
  refine ⟨(pdbCacheable fsx pa cwd, out), hout, ?_, ?_, ?_⟩
  · intro q hq hx; simp [pdbCacheable, hq, hx]
  · intro q hq hx; simp [pdbCacheable, hq, hx]
  · intro hq; simp [pdbCacheable, hq]

theorem c5_witness :
    ∃ r, (compile "cl.exe" (fun s => s == "/w/foo.pdb") ""
        ⟨"foo.c", "c", none, [("obj", "foo.obj"), ("pdb", "foo.pdb")], [], []⟩
        "/w" "/t" (fun _ => ⟨⟨0⟩, "", ""⟩)).2 = Except.ok r ∧ r.1 = Cacheable.No := by
  obtain ⟨r, h1, h2, _, _⟩ :=
    c5_cacheable_tag "cl.exe" (fun s => s == "/w/foo.pdb") ""
      ⟨"foo.c", "c", none, [("obj", "foo.obj"), ("pdb", "foo.pdb")], [], []⟩
      "/w" "/t" (fun _ => ⟨⟨0⟩, "", ""⟩) "foo.obj" "foo.c" rfl rfl
  exact ⟨r, h1, h2 "foo.pdb" rfl rfl⟩

/-- Claim C6: when the primary attempt (on the temporary preprocessed
input) exits successfully no fallback is issued and its output is returned;
when it exits unsuccessfully exactly one additional invocation is issued,
taking the original source path as input, and that second attempt's output
is returned whatever its status; in both cases the tag is the one computed
before compiling (`pdbCacheable`). -/
theorem c6_compile_fallback (exe : String) (fsx : String → Bool) (po : String)
    (pa : ParsedArguments) (cwd tmpdir : String) (runner : Nat → ProcOutput)
    (objf fn : String)
    (ho : pa.outputs.lookup "obj" = some objf) (hf : fileName pa.input = some fn) :
    ((runner 0).status.success = true →
      compile exe fsx po pa cwd tmpdir runner =
        ([⟨exe, ["-c", "-Fo" ++ objf] ++ pa.common_args ++ [joinPath tmpdir fn], cwd⟩],
         Except.ok (pdbCacheable fsx pa cwd, runner 0))) ∧
    ((runner 0).status.success = false →
      compile exe fsx po pa cwd tmpdir runner =
        ([⟨exe, ["-c", "-Fo" ++ objf] ++ pa.common_args ++ [joinPath tmpdir fn], cwd⟩,
          ⟨exe, ["-c", pa.input, "-Fo" ++ objf] ++ pa.common_args, cwd⟩],
         Except.ok (pdbCacheable fsx pa cwd, runner 1))) := by
  constructor
  · intro hs; simp [compile, ho, hf, hs]
  · intro hs; simp [compile, ho, hf, hs]

theorem c6_witness :
    compile "cl.exe" (fun _ => false) "" ⟨"foo.c", "c", none, [("obj", "foo.obj")], [], []⟩
        "/w" "/t" (fun n => if n = 0 then ⟨⟨1⟩, "a", ""⟩ else ⟨⟨0⟩, "b", ""⟩) =
      ([⟨"cl.exe", ["-c", "-Fofoo.obj", "/t/foo.c"], "/w"⟩,
        ⟨"cl.exe", ["-c", "foo.c", "-Fofoo.obj"], "/w"⟩],
       Except.ok (Cacheable.Yes, ⟨⟨0⟩, "b", ""⟩)) :=
  (c6_compile_fallback "cl.exe" (fun _ => false) ""
      ⟨"foo.c", "c", none, [("obj", "foo.obj")], [], []⟩ "/w" "/t"
      (fun n => if n = 0 then ⟨⟨1⟩, "a", ""⟩ else ⟨⟨0⟩, "b", ""⟩)
      "foo.obj" "foo.c" rfl rfl).2 rfl

/-- Claim C10: `compile` re-validates its inputs before any invocation: a
missing object output is a hard error, and additionally an input path with
no filename component (for example `""` or a path ending in `..`) is a hard
error; in both cases no compiler process is invoked (empty invocation
list). -/
theorem c10_compile_validation (exe : String) (fsx : String → Bool) (po : String)
    (pa : ParsedArguments) (cwd tmpdir : String) (runner : Nat → ProcOutput) :
    (pa.outputs.lookup "obj" = none →
      compile exe fsx po pa cwd tmpdir runner =
        ([], Except.error "Missing object file output")) ∧
    (∀ objf, pa.outputs.lookup "obj" = some objf → fileName pa.input = none →
      compile exe fsx po pa cwd tmpdir runner =
        ([], Except.error "missing input filename")) := by
  constructor
  · intro h; simp [compile, h]
  · intro objf h1 h2; simp [compile, h1, h2]

theorem c10_witness :
    compile "cl.exe" (fun _ => false) "" ⟨"foo/..", "c", none, [("obj", "x.obj")], [], []⟩
        "/w" "/t" (fun _ => ⟨⟨0⟩, "", ""⟩) = ([], Except.error "missing input filename") :=
  (c10_compile_validation "cl.exe" (fun _ => false) ""
      ⟨"foo/..", "c", none, [("obj", "x.obj")], [], []⟩ "/w" "/t"
      (fun _ => ⟨⟨0⟩, "", ""⟩)).2 "x.obj" rfl rfl

end Msvc
